import Mathlib

/-!
Verification of the banking demo backend (account creation, funding,
transaction listing) against its specification.

The durable store is modelled with exact integer-cents arithmetic: every
monetary value the code manipulates is produced by `toFixed(2)` round-trips
or by SQL `round(_, 2)`, so within the double-exact range each such value
is an integer number of cents and the arithmetic of the funding path is
exact cent arithmetic.  Timestamps are natural numbers (ISO-8601 strings
compare lexicographically, i.e. chronologically).
-/

namespace Bank

/-- Failure kinds of the core operations (spec §6); TRPC codes of the source
are mapped to the spec's machine-checkable kinds. -/
inductive Err where
  | InvalidAmount
  | AmountTooSmall
  | AccountNotFound
  | AccountNotActive
  | InvalidFundingSource
  | InternalError
  | DuplicateAccountType
  deriving Repr, DecidableEq

/-! ## Monetary Normalizer

Source: `src/server/routers/account.ts` lines 80-92 — the zod preprocessing
of `amount`: the string must match `^(?:0|[1-9]\d*)(?:\.\d{1,2})?$` and is
then normalized by `Number(Number(s).toFixed(2))`.  For a string accepted by
that regular expression the value has at most two fractional digits, so the
`toFixed(2)` round-trip denotes the exact integer number of cents, which is
what `centsOf` computes. -/

/-- A digit in `[1-9]` (the regex class forbidding a leading zero). -/
def isNzDigit (c : Char) : Bool := c.isDigit && c != '0'

/-- The integer part of the regex: `0` or `[1-9]\d*`. -/
def intPartOk : List Char → Bool
  | [] => false
  | [c] => c.isDigit
  | c :: cs => isNzDigit c && cs.all Char.isDigit

/-- The optional fractional group of the regex: absent, or `\.\d{1,2}`. -/
def fracPartOk : Option (List Char) → Bool
  | none => true
  | some fp => (fp.length == 1 || fp.length == 2) && fp.all Char.isDigit

/-- Split a character list at the first `'.'` (if any), the decomposition
performed by the anchored regex. -/
def splitAmountAux : List Char → List Char × Option (List Char)
  | [] => ([], none)
  | c :: rest =>
      if c = '.' then ([], some rest)
      else (c :: (splitAmountAux rest).1, (splitAmountAux rest).2)

def splitAmount (s : String) : List Char × Option (List Char) :=
  splitAmountAux s.data

/-- Acceptance by the amount regex `^(?:0|[1-9]\d*)(?:\.\d{1,2})?$`. -/
def amountAccepts (s : String) : Bool :=
  intPartOk (splitAmount s).1 && fracPartOk (splitAmount s).2

def digitVal (c : Char) : Nat := c.toNat - 48

def digitsVal (cs : List Char) : Nat :=
  cs.foldl (fun a c => 10 * a + digitVal c) 0

/-- Cents contributed by the fractional part (one digit counts tens of
cents, two digits count cents). -/
def fracCents : Option (List Char) → Nat
  | none => 0
  | some fp => if fp.length == 1 then 10 * digitsVal fp else digitsVal fp

/-- Exact cent value of an accepted amount string. -/
def centsOf (s : String) : Nat :=
  100 * digitsVal (splitAmount s).1 + fracCents (splitAmount s).2

/-- The Monetary Normalizer: `zod` regex gate followed by the
`Number(Number(s).toFixed(2))` normalization, in exact cents. -/
def normalizeAmount (s : String) : Option Nat :=
  if amountAccepts s then some (centsOf s) else none

/-- Exact rational value denoted by the decimal literal `s` (integer part
plus fractional digits scaled by their length). -/
def ratValue (s : String) : ℚ :=
  (digitsVal (splitAmount s).1 : ℚ) +
    (match (splitAmount s).2 with
     | none => 0
     | some fp => (digitsVal fp : ℚ) / 10 ^ fp.length)

/-- The spec's wording of the integer part: "zero or a non-zero-leading
integer part". -/
def specIntPart (ip : List Char) : Prop :=
  ip = ['0'] ∨
    ∃ d ds, ip = d :: ds ∧ d.isDigit = true ∧ d ≠ '0' ∧ ∀ c ∈ ds, c.isDigit = true

/-- The accepted grammar as worded by the spec (§4.1): "zero or a
non-zero-leading integer part, optionally followed by '.' and 1-2
fractional digits". -/
def specAmountGrammar (s : String) : Prop :=
  specIntPart s.data ∨
    ∃ ip fp, s.data = ip ++ '.' :: fp ∧ specIntPart ip ∧
      (fp.length = 1 ∨ fp.length = 2) ∧ ∀ c ∈ fp, c.isDigit = true

/-! ## Data model

Tables of `src/lib/db/index.ts` (`initDb`), restricted to the columns the
core reads or writes.  `id` columns are `INTEGER PRIMARY KEY AUTOINCREMENT`:
the model carries the next rowid explicitly.  Monetary columns (`REAL` in
the schema) are exact cents, timestamps (`TEXT` ISO-8601) are naturals. -/

structure Account where
  id : Nat
  userId : Nat
  accountNumber : String
  accountType : String
  balance : Int
  status : String
  deriving Repr, DecidableEq

structure Txn where
  id : Nat
  accountId : Nat
  type : String
  amount : Int
  description : String
  status : String
  processedAt : Nat
  createdAt : Nat
  deriving Repr, DecidableEq

structure User where
  id : Nat
  email : String
  deriving Repr, DecidableEq

structure Session where
  id : Nat
  userId : Nat
  token : String
  deriving Repr, DecidableEq

structure DB where
  users : List User
  sessions : List Session
  accounts : List Account
  transactions : List Txn
  nextAccountId : Nat
  nextTxnId : Nat
  deriving Repr, DecidableEq

/-- `fundingSource` input object of `fundAccount` (zod schema, account.ts
lines 93-97). -/
structure FundingSource where
  type : String
  accountNumber : String
  routingNumber : Option String
  deriving Repr, DecidableEq

/-- The `.refine` on the input object (account.ts lines 99-112): when the
type is `bank` the routing number must be present and match `^\d{9}$`. -/
def validFundingSource (fs : FundingSource) : Bool :=
  if fs.type == "bank" then
    match fs.routingNumber with
    | some r => r.length == 9 && r.data.all Char.isDigit
    | none => false
  else true

/-- The ownership lookup `SELECT ... WHERE id = ? AND user_id = ?` shared by
`fundAccount` (lines 124-128) and `getTransactions` (lines 192-196). -/
def findAccount (db : DB) (aid uid : Nat) : Option Account :=
  db.accounts.find? fun a => a.id == aid && a.userId == uid

/-- All ledger rows of one account
(`SELECT * FROM transactions WHERE account_id = ?`). -/
def txnsFor (db : DB) (aid : Nat) : List Txn :=
  db.transactions.filter fun t => t.accountId == aid

/-- Possible results of
`SELECT * FROM transactions WHERE account_id = ? ORDER BY created_at DESC
LIMIT 1` (account.ts lines 167-171): any row of the account whose
`created_at` is maximal — SQL leaves the order of equal keys unspecified,
so every maximal row is a possible result. -/
def mostRecentCandidates (db : DB) (aid : Nat) : List Txn :=
  (txnsFor db aid).filter fun t =>
    (txnsFor db aid).all fun u => u.createdAt ≤ t.createdAt

/-- The ledger row inserted by `fundAccount` (account.ts lines 147-160):
type `deposit`, status `completed`, both timestamps set to the same
`new Date().toISOString()`; the rowid is the next AUTOINCREMENT id. -/
def mkFundTxn (db : DB) (aid : Nat) (cents : Int) (srcType : String) (now : Nat) : Txn :=
  { id := db.nextTxnId
    accountId := aid
    type := "deposit"
    amount := cents
    description := "Funding from " ++ srcType
    status := "completed"
    processedAt := now
    createdAt := now }

/-- The two writes of the funding transaction applied to the store: the
`INSERT INTO transactions` and the
`UPDATE accounts SET balance = round(balance + ?, 2) WHERE id = ?`
(account.ts lines 147-164); in cents the `round(_, 2)` is exact. -/
def applyFundWrites (db : DB) (aid : Nat) (cents : Int) (t : Txn) : DB :=
  { db with
    transactions := db.transactions ++ [t]
    accounts := db.accounts.map fun a =>
      if a.id == aid then { a with balance := a.balance + cents } else a
    nextTxnId := db.nextTxnId + 1 }

/-- `SELECT balance FROM accounts WHERE id = ?` followed by
`Number(Number(balance ?? 0).toFixed(2))` (account.ts lines 173-174). -/
def readBalance (db : DB) (aid : Nat) : Int :=
  match db.accounts.find? (fun a => a.id == aid) with
  | some a => a.balance
  | none => 0

structure FundResult where
  inserted : Txn
  newBalance : Int
  deriving Repr, DecidableEq

/-- The `fundAccount` mutation (account.ts lines 74-182) as a state
function: zod input validation (amount grammar + normalization, funding
source refinement), the `$0.01` minimum, the ownership lookup, the status
check, then the atomic insert + balance update.  The returned pair is the
post-call store and the call's outcome; every error path leaves the store
exactly as received.  The `inserted` field is the row written by the
`INSERT`; the value the source actually returns to the caller is read back
by `created_at`, modelled by `mostRecentCandidates` on the post-state. -/
def fundAccount (db : DB) (uid aid : Nat) (amountStr : String)
    (fs : FundingSource) (now : Nat) : DB × Except Err FundResult :=
  match normalizeAmount amountStr with
  | none => (db, .error .InvalidAmount)
  | some cents =>
    if !validFundingSource fs then (db, .error .InvalidFundingSource)
    else if cents < 1 then (db, .error .AmountTooSmall)
    else
      match findAccount db aid uid with
      | none => (db, .error .AccountNotFound)
      | some acct =>
        if acct.status != "active" then (db, .error .AccountNotActive)
        else
          let t := mkFundTxn db aid (cents : Int) fs.type now
          let db' := applyFundWrites db aid (cents : Int) t
          (db', .ok { inserted := t, newBalance := readBalance db' aid })

/-- The `getTransactions` query (account.ts lines 184-221): ownership
lookup, then all ledger rows of the account, each enriched with the
`accountType` of the row's account looked up at query time
(`accountDetails?.accountType`, an `Option` since the lookup is by id). -/
def getTransactions (db : DB) (uid aid : Nat) :
    DB × Except Err (List (Txn × Option String)) :=
  match findAccount db aid uid with
  | none => (db, .error .AccountNotFound)
  | some _ =>
    (db, .ok ((txnsFor db aid).map fun t =>
      (t, (db.accounts.find? (fun a => a.id == t.accountId)).map Account.accountType)))

/-- The `getAccounts` query (account.ts lines 68-72). -/
def getAccounts (db : DB) (uid : Nat) : DB × List Account :=
  (db, db.accounts.filter fun a => a.userId == uid)

/-! ## Account Number Allocator -/

/-- `generateAccountNumber` (account.ts lines 10-15): a 5-byte random draw
`d < 2^40` mapped to `(d % 9000000000) + 1000000000` and rendered in
decimal. -/
def generateAccountNumber (d : Nat) : String :=
  toString (d % 9000000000 + 1000000000)

def numberTaken (db : DB) (n : String) : Bool :=
  db.accounts.any fun a => a.accountNumber == n

/-- The `while (!isUnique)` loop of `createAccount` (account.ts lines
39-47), indexed by the number of iterations it is allowed to run: the
source has NO iteration bound, so `none` means the loop has not finished
within `fuel` iterations (and the call has not returned). -/
def allocateLoop (db : DB) (draws : Nat → Nat) : Nat → Option String
  | 0 => none
  | fuel + 1 =>
    if numberTaken db (generateAccountNumber (draws 0)) then
      allocateLoop db (fun i => draws (i + 1)) fuel
    else some (generateAccountNumber (draws 0))

/-- The row `createAccount` inserts (account.ts lines 49-55): balance `0`,
status `active`, next AUTOINCREMENT rowid. -/
def newAccount (db : DB) (uid : Nat) (atype n : String) : Account :=
  { id := db.nextAccountId, userId := uid, accountNumber := n
    accountType := atype, balance := 0, status := "active" }

def insertAccount (db : DB) (uid : Nat) (atype n : String) : DB :=
  { db with
    accounts := db.accounts ++ [newAccount db uid atype n]
    nextAccountId := db.nextAccountId + 1 }

/-- The `createAccount` mutation (account.ts lines 18-66): duplicate
account-type check, the allocation loop, the insert (balance `0`, status
`active`), and the re-fetch by account number.  The result is `none` when
the allocation loop has not terminated within `fuel` iterations — the
source would still be looping, so no state transition has happened. -/
def createAccount (db : DB) (uid : Nat) (atype : String) (draws : Nat → Nat)
    (fuel : Nat) : Option (DB × Except Err Account) :=
  if db.accounts.any (fun a => a.userId == uid && a.accountType == atype) then
    some (db, .error .DuplicateAccountType)
  else
    match allocateLoop db draws fuel with
    | none => none
    | some n =>
      match (insertAccount db uid atype n).accounts.find?
          (fun a => a.accountNumber == n) with
      | none => some (insertAccount db uid atype n, .error .InternalError)
      | some a => some (insertAccount db uid atype n, .ok a)

/-! ## Reachable states and the balance invariant -/

/-- One core operation together with its call parameters (spec §6). -/
inductive Op where
  | create (uid : Nat) (atype : String) (draws : Nat → Nat) (fuel : Nat)
  | listAccounts (uid : Nat)
  | fund (uid aid : Nat) (amount : String) (fs : FundingSource) (now : Nat)
  | listTxns (uid aid : Nat)

/-- The store after one core operation (reads and failed calls leave it
unchanged; a non-returning `createAccount` has made no transition). -/
def stepOp (db : DB) : Op → DB
  | .create uid atype draws fuel =>
    match createAccount db uid atype draws fuel with
    | some (db', _) => db'
    | none => db
  | .listAccounts _ => db
  | .fund uid aid s fs now => (fundAccount db uid aid s fs now).1
  | .listTxns _ _ => db

def runOps (db : DB) (ops : List Op) : DB :=
  ops.foldl stepOp db

/-- Sum of the completed ledger entries of one account (spec §3
invariant), in cents. -/
def completedSum (db : DB) (aid : Nat) : Int :=
  ((db.transactions.filter fun t =>
      t.accountId == aid && t.status == "completed").map Txn.amount).sum

/-- Every account's balance equals the sum of its completed ledger
entries. -/
def balanceInv (db : DB) : Prop :=
  ∀ a ∈ db.accounts, a.balance = completedSum db a.id

/-- Rowid discipline of the AUTOINCREMENT store: every existing account id
and every ledger back-reference is below the next account rowid, and
ledger rowids are below the next transaction rowid. -/
def idsBounded (db : DB) : Prop :=
  (∀ a ∈ db.accounts, a.id < db.nextAccountId) ∧
    (∀ t ∈ db.transactions, t.accountId < db.nextAccountId) ∧
    (∀ t ∈ db.transactions, t.id < db.nextTxnId)

def Inv (db : DB) : Prop := idsBounded db ∧ balanceInv db

/-- The empty store produced by `initDb`. -/
def emptyDB : DB :=
  { users := [], sessions := [], accounts := [], transactions := []
    nextAccountId := 1, nextTxnId := 1 }

/-! ## The funding transaction as a sequence of journalled writes

`fundAccount` executes its two writes inside `sqlite.transaction(...)`
(account.ts line 145): better-sqlite3 wraps the body in `BEGIN`/`COMMIT`
and issues `ROLLBACK` when the body throws, so a persistence failure after
any prefix of the statements restores the snapshot taken at `BEGIN` and
surfaces to tRPC as an internal error. -/

inductive WriteOp where
  | insertTxn (t : Txn)
  | updateBalance (aid : Nat) (cents : Int)

/-- Effect of one SQL statement of the transaction body. -/
def applyWrite (db : DB) : WriteOp → DB
  | .insertTxn t =>
    { db with transactions := db.transactions ++ [t], nextTxnId := db.nextTxnId + 1 }
  | .updateBalance aid cents =>
    { db with accounts := db.accounts.map fun a =>
        if a.id == aid then { a with balance := a.balance + cents } else a }

/-- The statement list of the funding transaction body: the `INSERT INTO
transactions` then the `UPDATE accounts SET balance = round(balance + ?, 2)`. -/
def fundWrites (db : DB) (aid : Nat) (cents : Int) (fs : FundingSource)
    (now : Nat) : List WriteOp :=
  [.insertTxn (mkFundTxn db aid cents fs.type now), .updateBalance aid cents]

/-- State visible inside the transaction after the first `k` statements
(uncommitted). -/
def applyTake (db : DB) (ws : List WriteOp) (k : Nat) : DB :=
  (ws.take k).foldl applyWrite db

/-- `ROLLBACK`: the uncommitted working state is discarded and the
snapshot taken at `BEGIN` is restored. -/
def rollbackTo (saved : DB) (_discarded : DB) : DB := saved

/-- better-sqlite3 transaction semantics: with no failure the whole body
commits; a persistence failure after `k` statements rolls the uncommitted
state back to the snapshot and the error reaches the caller as
`InternalError` (tRPC maps a non-TRPC throw to `INTERNAL_SERVER_ERROR`). -/
def runTxn (db : DB) (ws : List WriteOp) (failAfter : Option Nat) : DB × Option Err :=
  match failAfter with
  | none => (applyTake db ws ws.length, none)
  | some k => (rollbackTo db (applyTake db ws k), some .InternalError)

/-- `N` serialized `FundAccount` calls with identical parameters, stopping
at the first failure.  Concurrent calls serialize: each call's writes
happen inside one better-sqlite3 transaction, executed synchronously on
the node thread, so every interleaving of `N` concurrent calls is one of
the `N!` serial orders — with identical parameters all of them are this
function. -/
def fundN (uid aid : Nat) (s : String) (fs : FundingSource) (now : Nat) :
    Nat → DB → Option DB
  | 0, db => some db
  | n + 1, db =>
    match fundAccount db uid aid s fs now with
    | (db', .ok _) => fundN uid aid s fs now n db'
    | (_, .error _) => none

/-! ## Concrete stores and inputs used to instantiate the theorems -/

def fsCard : FundingSource :=
  { type := "card", accountNumber := "4111111111111111", routingNumber := none }

def acctW : Account :=
  { id := 1, userId := 7, accountNumber := "1234567890"
    accountType := "checking", balance := 500, status := "active" }

def txnW : Txn :=
  { id := 1, accountId := 1, type := "deposit", amount := 500
    description := "Funding from card", status := "completed"
    processedAt := 5, createdAt := 5 }

def dbW : DB :=
  { users := [{ id := 7, email := "u@example.com" }]
    sessions := [{ id := 1, userId := 7, token := "tok" }]
    accounts := [acctW]
    transactions := [txnW]
    nextAccountId := 2, nextTxnId := 2 }

/-- A store already holding the account number that a constant-zero random
stream keeps drawing. -/
def dbC7 : DB :=
  { users := [], sessions := []
    accounts := [{ id := 1, userId := 7, accountNumber := "1000000000"
                   accountType := "checking", balance := 0, status := "active" }]
    transactions := []
    nextAccountId := 2, nextTxnId := 1 }

/-! ## Lemmas about the Monetary Normalizer -/

theorem splitAmountAux_no_dot {l : List Char} (h : '.' ∉ l) :
    splitAmountAux l = (l, none) := by
  induction l with
  | nil => rfl
  | cons c cs ih =>
    have hc : ¬ c = '.' := fun hc => h (hc ▸ List.mem_cons_self c cs)
    have hcs : '.' ∉ cs := fun hm => h (List.mem_cons_of_mem c hm)
    simp [splitAmountAux, hc, ih hcs]

theorem splitAmountAux_dot {ip : List Char} (fp : List Char) (h : '.' ∉ ip) :
    splitAmountAux (ip ++ '.' :: fp) = (ip, some fp) := by
  induction ip with
  | nil => simp [splitAmountAux]
  | cons c cs ih =>
    have hc : ¬ c = '.' := fun hc => h (hc ▸ List.mem_cons_self c cs)
    have hcs : '.' ∉ cs := fun hm => h (List.mem_cons_of_mem c hm)
    simp [splitAmountAux, hc, ih hcs]

theorem splitAmountAux_recover (l : List Char) :
    '.' ∉ (splitAmountAux l).1 ∧
      l = (splitAmountAux l).1 ++
        (match (splitAmountAux l).2 with
         | none => []
         | some fp => '.' :: fp) := by
  induction l with
  | nil => exact ⟨by simp [splitAmountAux], rfl⟩
  | cons c cs ih =>
    by_cases hc : c = '.'
    · subst hc
      simp [splitAmountAux]
    · obtain ⟨ih1, ih2⟩ := ih
      refine ⟨?_, ?_⟩
      · simp only [splitAmountAux, if_neg hc]
        intro hm
        rcases List.mem_cons.mp hm with h | h
        · exact hc h.symm
        · exact ih1 h
      · simp only [splitAmountAux, if_neg hc, List.cons_append]
        exact congrArg (c :: ·) ih2

theorem intPartOk_iff {ip : List Char} : intPartOk ip = true ↔ specIntPart ip := by
  match ip with
  | [] => simp [intPartOk, specIntPart]
  | [c] =>
    simp only [intPartOk, specIntPart]
    constructor
    · intro h
      by_cases hc : c = '0'
      · exact Or.inl (by rw [hc])
      · exact Or.inr ⟨c, [], rfl, h, hc, by simp⟩
    · rintro (h | ⟨d, ds, heq, hd, _, _⟩)
      · have hc : c = '0' := by injection h
        rw [hc]; decide
      · have hcd : c = d := by injection heq
        rw [hcd]; exact hd
  | c :: d :: ds =>
    simp only [intPartOk, specIntPart, Bool.and_eq_true, isNzDigit,
      bne_iff_ne, List.all_eq_true]
    constructor
    · rintro ⟨⟨hdig, hne⟩, hall⟩
      exact Or.inr ⟨c, d :: ds, rfl, hdig, hne, hall⟩
    · rintro (h | ⟨e, es, heq, hdig, hne, hall⟩)
      · exact absurd h (by simp)
      · have hce : c = e ∧ d :: ds = es := by
          constructor <;> injection heq
        obtain ⟨rfl, rfl⟩ := hce
        exact ⟨⟨hdig, hne⟩, hall⟩

theorem specIntPart_no_dot {ip : List Char} (h : specIntPart ip) : '.' ∉ ip := by
  rcases h with h | ⟨d, ds, rfl, hd, _, hall⟩
  · rw [h]; decide
  · intro hm
    rcases List.mem_cons.mp hm with h | h
    · rw [← h] at hd
      exact absurd hd (by decide)
    · exact absurd (hall _ h) (by decide)

theorem fracPartOk_some_iff {fp : List Char} :
    fracPartOk (some fp) = true ↔
      (fp.length = 1 ∨ fp.length = 2) ∧ ∀ c ∈ fp, c.isDigit = true := by
  simp [fracPartOk, List.all_eq_true]

/-- The normalizer's acceptance agrees exactly with the spec's grammar. -/
theorem amountAccepts_iff (s : String) :
    amountAccepts s = true ↔ specAmountGrammar s := by
  constructor
  · intro h
    obtain ⟨h1, h2⟩ := splitAmountAux_recover s.data
    rw [amountAccepts, Bool.and_eq_true] at h
    obtain ⟨hip, hfr⟩ := h
    cases hsp : (splitAmount s).2 with
    | none =>
      rw [splitAmount] at hsp
      rw [hsp] at h2
      simp only [List.append_nil] at h2
      refine Or.inl ?_
      rw [h2]
      exact intPartOk_iff.mp hip
    | some fp =>
      rw [splitAmount] at hsp
      rw [hsp] at h2
      rw [splitAmount, hsp] at hfr
      obtain ⟨hlen, hall⟩ := fracPartOk_some_iff.mp hfr
      exact Or.inr ⟨(splitAmountAux s.data).1, fp, h2,
        intPartOk_iff.mp hip, hlen, hall⟩
  · rintro (h | ⟨ip, fp, heq, hip, hlen, hall⟩)
    · have hnd : '.' ∉ s.data := specIntPart_no_dot h
      rw [amountAccepts, splitAmount, splitAmountAux_no_dot hnd]
      simp only [Bool.and_eq_true]
      exact ⟨intPartOk_iff.mpr h, by simp [fracPartOk]⟩
    · have hnd : '.' ∉ ip := specIntPart_no_dot hip
      rw [amountAccepts, splitAmount, heq, splitAmountAux_dot fp hnd]
      simp only [Bool.and_eq_true]
      exact ⟨intPartOk_iff.mpr hip, fracPartOk_some_iff.mpr ⟨hlen, hall⟩⟩

/-- For every accepted amount the normalized cent count denotes exactly
100 times the rational value of the decimal literal: the input has at most
two fractional digits, so rounding to two decimals is the identity and the
output is exact. -/
theorem normalizeAmount_value {s : String} {c : Nat}
    (h : normalizeAmount s = some c) : (c : ℚ) = 100 * ratValue s := by
  rw [normalizeAmount] at h
  by_cases hacc : amountAccepts s = true
  · rw [if_pos hacc] at h
    have hc : centsOf s = c := by injection h
    subst hc
    rw [amountAccepts, Bool.and_eq_true] at hacc
    obtain ⟨_, hfr⟩ := hacc
    rw [centsOf, ratValue]
    cases hsp : (splitAmount s).2 with
    | none =>
      simp only [hsp, fracCents]
      push_cast
      ring
    | some fp =>
      rw [hsp] at hfr
      obtain ⟨hlen, _⟩ := fracPartOk_some_iff.mp hfr
      rcases hlen with h1 | h2
      · simp only [hsp, fracCents, h1]
        norm_num
        ring
      · simp only [hsp, fracCents, h2]
        norm_num
        ring
  · rw [if_neg hacc] at h
    exact absurd h (by simp)

/-! ## Case analysis of the funding path -/

/-- Every `fundAccount` call either fails leaving the store untouched, or
satisfies every precondition and commits exactly the insert + balance
update. -/
theorem fund_eq_invalidAmount {s : String} (hn : normalizeAmount s = none)
    (db : DB) (uid aid : Nat) (fs : FundingSource) (now : Nat) :
    fundAccount db uid aid s fs now = (db, Except.error Err.InvalidAmount) := by
  unfold fundAccount
  rw [hn]

theorem fund_eq_invalidSource {s : String} {cents : Nat}
    (hn : normalizeAmount s = some cents) {fs : FundingSource}
    (hfs : validFundingSource fs = false) (db : DB) (uid aid : Nat) (now : Nat) :
    fundAccount db uid aid s fs now = (db, Except.error Err.InvalidFundingSource) := by
  unfold fundAccount
  rw [hn, hfs]
  rfl

theorem fund_eq_tooSmall {s : String} {cents : Nat}
    (hn : normalizeAmount s = some cents) {fs : FundingSource}
    (hfs : validFundingSource fs = true) (hlt : cents < 1)
    (db : DB) (uid aid : Nat) (now : Nat) :
    fundAccount db uid aid s fs now = (db, Except.error Err.AmountTooSmall) := by
  unfold fundAccount
  rw [hn, hfs]
  simp [hlt]

theorem fund_eq_notFound {s : String} {cents : Nat}
    (hn : normalizeAmount s = some cents) {fs : FundingSource}
    (hfs : validFundingSource fs = true) (hge : ¬ cents < 1)
    {db : DB} {uid aid : Nat} (hf : findAccount db aid uid = none) (now : Nat) :
    fundAccount db uid aid s fs now = (db, Except.error Err.AccountNotFound) := by
  unfold fundAccount
  rw [hn, hfs, hf]
  simp [hge]

theorem fund_eq_notActive {s : String} {cents : Nat}
    (hn : normalizeAmount s = some cents) {fs : FundingSource}
    (hfs : validFundingSource fs = true) (hge : ¬ cents < 1)
    {db : DB} {uid aid : Nat} {acct : Account}
    (hf : findAccount db aid uid = some acct) (hst : acct.status ≠ "active")
    (now : Nat) :
    fundAccount db uid aid s fs now = (db, Except.error Err.AccountNotActive) := by
  unfold fundAccount
  rw [hn, hfs, hf]
  simp [hge, hst]

theorem fund_eq_ok {s : String} {cents : Nat}
    (hn : normalizeAmount s = some cents) {fs : FundingSource}
    (hfs : validFundingSource fs = true) (hge : ¬ cents < 1)
    {db : DB} {uid aid : Nat} {acct : Account}
    (hf : findAccount db aid uid = some acct) (hst : acct.status = "active")
    (now : Nat) :
    fundAccount db uid aid s fs now =
      (applyFundWrites db aid (cents : Int) (mkFundTxn db aid (cents : Int) fs.type now),
       Except.ok
         { inserted := mkFundTxn db aid (cents : Int) fs.type now
           newBalance := readBalance
             (applyFundWrites db aid (cents : Int)
               (mkFundTxn db aid (cents : Int) fs.type now)) aid }) := by
  unfold fundAccount
  rw [hn, hfs, hf]
  simp [hge, hst]

theorem fundAccount_cases (db : DB) (uid aid : Nat) (s : String)
    (fs : FundingSource) (now : Nat) :
    ((fundAccount db uid aid s fs now).1 = db ∧
      ∃ e, (fundAccount db uid aid s fs now).2 = Except.error e) ∨
    (∃ cents acct, normalizeAmount s = some cents ∧
      validFundingSource fs = true ∧ 1 ≤ cents ∧
      findAccount db aid uid = some acct ∧ acct.status = "active" ∧
      fundAccount db uid aid s fs now =
        (applyFundWrites db aid (cents : Int) (mkFundTxn db aid (cents : Int) fs.type now),
         Except.ok
           { inserted := mkFundTxn db aid (cents : Int) fs.type now
             newBalance := readBalance
               (applyFundWrites db aid (cents : Int)
                 (mkFundTxn db aid (cents : Int) fs.type now)) aid })) := by
  cases hn : normalizeAmount s with
  | none => exact Or.inl (by rw [fund_eq_invalidAmount hn]; exact ⟨rfl, _, rfl⟩)
  | some cents =>
    cases hfs : validFundingSource fs with
    | false => exact Or.inl (by rw [fund_eq_invalidSource hn hfs]; exact ⟨rfl, _, rfl⟩)
    | true =>
      by_cases hlt : cents < 1
      · exact Or.inl (by rw [fund_eq_tooSmall hn hfs hlt]; exact ⟨rfl, _, rfl⟩)
      · cases hf : findAccount db aid uid with
        | none => exact Or.inl (by rw [fund_eq_notFound hn hfs hlt hf]; exact ⟨rfl, _, rfl⟩)
        | some acct =>
          by_cases hst : acct.status = "active"
          · exact Or.inr ⟨cents, acct, rfl, rfl, by omega, rfl, hst,
              fund_eq_ok hn hfs hlt hf hst now⟩
          · exact Or.inl (by rw [fund_eq_notActive hn hfs hlt hf hst]; exact ⟨rfl, _, rfl⟩)

/-- Inversion of a successful `fundAccount` call. -/
theorem fundAccount_ok_inversion {db : DB} {uid aid : Nat} {s : String}
    {fs : FundingSource} {now : Nat} {r : FundResult}
    (h : (fundAccount db uid aid s fs now).2 = Except.ok r) :
    ∃ cents acct, normalizeAmount s = some cents ∧
      validFundingSource fs = true ∧ 1 ≤ cents ∧
      findAccount db aid uid = some acct ∧ acct.status = "active" ∧
      r = { inserted := mkFundTxn db aid (cents : Int) fs.type now
            newBalance := readBalance
              (applyFundWrites db aid (cents : Int)
                (mkFundTxn db aid (cents : Int) fs.type now)) aid } ∧
      (fundAccount db uid aid s fs now).1 =
        applyFundWrites db aid (cents : Int) (mkFundTxn db aid (cents : Int) fs.type now) := by
  rcases fundAccount_cases db uid aid s fs now with ⟨_, e, he⟩ | ⟨cents, acct, h1, h2, h3, h4, h5, h6⟩
  · rw [he] at h
    exact absurd h (by simp)
  · refine ⟨cents, acct, h1, h2, h3, h4, h5, ?_, ?_⟩
    · rw [h6] at h
      simpa using h.symm
    · rw [h6]

/-! ## Store lemmas -/

/-- The balance update rewrites neither `id` nor `userId`, so the
ownership lookup after `applyFundWrites` finds the updated row. -/
theorem findAccount_applyFundWrites {db : DB} {aid uid : Nat} {acct : Account}
    (hf : findAccount db aid uid = some acct) (cents : Int) (t : Txn) :
    findAccount (applyFundWrites db aid cents t) aid uid =
      some { acct with balance := acct.balance + cents } := by
  have hid : acct.id = aid := by
    have h := List.find?_some hf
    rw [Bool.and_eq_true, beq_iff_eq, beq_iff_eq] at h
    exact h.1
  rw [findAccount, applyFundWrites]
  rw [List.find?_map]
  have hcomp :
      ((fun a : Account => a.id == aid && a.userId == uid) ∘ fun a : Account =>
        if a.id == aid then { a with balance := a.balance + cents } else a) =
      fun a : Account => a.id == aid && a.userId == uid := by
    funext a
    by_cases h : a.id = aid <;> simp [h]
  rw [hcomp]
  rw [findAccount] at hf
  rw [hf]
  simp [hid]

theorem txnsFor_applyFundWrites (db : DB) (aid : Nat) (cents : Int) {t : Txn}
    (ht : t.accountId = aid) :
    txnsFor (applyFundWrites db aid cents t) aid = txnsFor db aid ++ [t] := by
  rw [txnsFor, applyFundWrites]
  rw [List.filter_append]
  rw [txnsFor]
  simp [ht]

theorem readBalance_applyFundWrites {db : DB} {aid : Nat} {a0 : Account}
    (hmem : a0 ∈ db.accounts) (hid : a0.id = aid) (cents : Int) (t : Txn) :
    readBalance (applyFundWrites db aid cents t) aid = readBalance db aid + cents := by
  rw [readBalance, readBalance, applyFundWrites]
  rw [List.find?_map]
  have hcomp :
      ((fun a : Account => a.id == aid) ∘ fun a : Account =>
        if a.id == aid then { a with balance := a.balance + cents } else a) =
      fun a : Account => a.id == aid := by
    funext a
    by_cases h : a.id = aid <;> simp [h]
  rw [hcomp]
  cases hfind : db.accounts.find? (fun a => a.id == aid) with
  | none =>
    exfalso
    rw [List.find?_eq_none] at hfind
    exact hfind a0 hmem (by simp [hid])
  | some b =>
    have hb : b.id = aid := by
      have h := List.find?_some hfind
      rwa [beq_iff_eq] at h
    simp [hb]

/-- A found element that is unique for the predicate is the result of
`find?`. -/
theorem find?_unique {α : Type} (p : α → Bool) {l : List α} {x : α}
    (hx : x ∈ l) (hp : p x = true) (huniq : ∀ y ∈ l, p y = true → y = x) :
    l.find? p = some x := by
  induction l with
  | nil => cases hx
  | cons b bs ih =>
    by_cases hb : p b = true
    · rw [List.find?_cons_of_pos bs hb, huniq b (List.mem_cons_self b bs) hb]
    · rw [List.find?_cons_of_neg bs hb]
      rcases List.mem_cons.mp hx with rfl | hx'
      · exact absurd hp hb
      · exact ih hx' fun y hy hpy => huniq y (List.mem_cons_of_mem b hy) hpy

/-- When no stored account matches `(aid, uid)` jointly, the ownership
lookup fails — whether the id exists under another owner or not at all. -/
theorem findAccount_none {db : DB} {aid uid : Nat}
    (h : ∀ a ∈ db.accounts, a.id = aid → a.userId ≠ uid) :
    findAccount db aid uid = none := by
  rw [findAccount, List.find?_eq_none]
  intro a ha hpa
  rw [Bool.and_eq_true, beq_iff_eq, beq_iff_eq] at hpa
  exact h a ha hpa.1 hpa.2

theorem getTxns_eq_notFound {db : DB} {uid aid : Nat}
    (hf : findAccount db aid uid = none) :
    getTransactions db uid aid = (db, Except.error Err.AccountNotFound) := by
  unfold getTransactions
  rw [hf]

theorem getTxns_eq_ok {db : DB} {uid aid : Nat} {acct : Account}
    (hf : findAccount db aid uid = some acct) :
    getTransactions db uid aid =
      (db, Except.ok ((txnsFor db aid).map fun t =>
        (t, (db.accounts.find? (fun a => a.id == t.accountId)).map
          Account.accountType))) := by
  unfold getTransactions
  rw [hf]

/-! ## Claim theorems -/

/-- C4: a textual amount is accepted by the Monetary Normalizer exactly
when it matches the grammar "zero or a non-zero-leading integer part,
optionally followed by '.' and 1-2 fractional digits"; every accepted
input normalizes to an exact 2-decimal value equal to the mathematically
rounded input (the cent count is exactly 100 times the literal's rational
value, so rounding to 2 decimals is exact); any other input makes
`fundAccount` fail with `InvalidAmount`. -/
theorem C4_monetary_normalizer (s : String) :
    (amountAccepts s = true ↔ specAmountGrammar s) ∧
    (∀ c : Nat, normalizeAmount s = some c → (c : ℚ) = 100 * ratValue s) ∧
    (amountAccepts s = false →
      ∀ (db : DB) (uid aid : Nat) (fs : FundingSource) (now : Nat),
        (fundAccount db uid aid s fs now).2 = Except.error Err.InvalidAmount) := by
  refine ⟨amountAccepts_iff s, fun c h => normalizeAmount_value h,
    fun hrej db uid aid fs now => ?_⟩
  have hn : normalizeAmount s = none := by
    rw [normalizeAmount, hrej]
    rfl
  rw [fund_eq_invalidAmount hn]

/-- Witness for C4 at concrete inputs: "12.05" normalizes to 1205 cents
and equals its rational value times 100; "007" (multiple leading zeros) is
rejected by `fundAccount` with `InvalidAmount`. -/
theorem C4_monetary_normalizer_witness :
    ((1205 : ℚ) = 100 * ratValue "12.05") ∧
    (fundAccount dbW 7 1 "007" fsCard 5).2 = Except.error Err.InvalidAmount :=
  ⟨(C4_monetary_normalizer "12.05").2.1 1205 rfl,
   (C4_monetary_normalizer "007").2.2 rfl dbW 7 1 fsCard 5⟩

/-- C5: a normalized amount below one cent fails with `AmountTooSmall` and
changes nothing; more generally every failing `fundAccount` call returns
the store exactly as received. -/
theorem C5_precondition_failures_frame (db : DB) (uid aid : Nat) (s : String)
    (fs : FundingSource) (now : Nat) :
    (∀ cents : Nat, normalizeAmount s = some cents → cents < 1 →
      validFundingSource fs = true →
      fundAccount db uid aid s fs now = (db, Except.error Err.AmountTooSmall)) ∧
    (∀ e : Err, (fundAccount db uid aid s fs now).2 = Except.error e →
      (fundAccount db uid aid s fs now).1 = db) := by
  constructor
  · intro cents hn hlt hfs
    exact fund_eq_tooSmall hn hfs hlt db uid aid now
  · intro e he
    rcases fundAccount_cases db uid aid s fs now with ⟨h1, _⟩ | ⟨_, _, _, _, _, _, _, h6⟩
    · exact h1
    · rw [h6] at he
      exact absurd he (by simp)

/-- Witness for C5: funding with "0.00" (normalizes to 0 cents) fails with
`AmountTooSmall` and leaves the concrete store untouched. -/
theorem C5_precondition_failures_frame_witness :
    fundAccount dbW 7 1 "0.00" fsCard 5 = (dbW, Except.error Err.AmountTooSmall) ∧
    (fundAccount dbW 7 1 "0.00" fsCard 5).1 = dbW := by
  have h := C5_precondition_failures_frame dbW 7 1 "0.00" fsCard 5
  have h1 := h.1 0 rfl (by decide) rfl
  exact ⟨h1, h.2 Err.AmountTooSmall (by rw [h1])⟩

/-- C6: with a well-formed amount and funding source, calling
`fundAccount` or `getTransactions` on an account that exists but belongs
to another owner produces exactly the error of a wholly nonexistent
account id (`AccountNotFound`), and the two runs' outcomes are equal —
no account-enumeration leakage. -/
theorem C6_ownership_indistinguishable
    (db1 db2 : DB) (uid1 uid2 aid1 aid2 : Nat) (s : String) (fs : FundingSource)
    (now : Nat) (cents : Nat)
    (hn : normalizeAmount s = some cents) (hfs : validFundingSource fs = true)
    (hge : ¬ cents < 1)
    (_hexists : ∃ a ∈ db1.accounts, a.id = aid1)
    (hforeign : ∀ a ∈ db1.accounts, a.id = aid1 → a.userId ≠ uid1)
    (hnone : ∀ a ∈ db2.accounts, a.id ≠ aid2) :
    (fundAccount db1 uid1 aid1 s fs now).2 = Except.error Err.AccountNotFound ∧
    (fundAccount db2 uid2 aid2 s fs now).2 = Except.error Err.AccountNotFound ∧
    (fundAccount db1 uid1 aid1 s fs now).2 = (fundAccount db2 uid2 aid2 s fs now).2 ∧
    (getTransactions db1 uid1 aid1).2 = Except.error Err.AccountNotFound ∧
    (getTransactions db2 uid2 aid2).2 = Except.error Err.AccountNotFound ∧
    (getTransactions db1 uid1 aid1).2 = (getTransactions db2 uid2 aid2).2 := by
  have hf1 : findAccount db1 aid1 uid1 = none := findAccount_none hforeign
  have hf2 : findAccount db2 aid2 uid2 = none :=
    findAccount_none fun a ha hid => absurd hid (hnone a ha)
  have e1 := @fund_eq_notFound s cents hn fs hfs hge db1 uid1 aid1 hf1 now
  have e2 := @fund_eq_notFound s cents hn fs hfs hge db2 uid2 aid2 hf2 now
  have g1 := getTxns_eq_notFound hf1
  have g2 := getTxns_eq_notFound hf2
  rw [e1, e2, g1, g2]
  exact ⟨rfl, rfl, rfl, rfl, rfl, rfl⟩

/-- Witness for C6: account 1 of `dbW` is owned by user 7; caller 8 gets
`AccountNotFound`, exactly as a call against the empty store does. -/
theorem C6_ownership_indistinguishable_witness :
    (fundAccount dbW 8 1 "1.00" fsCard 5).2 = Except.error Err.AccountNotFound ∧
    (fundAccount emptyDB 8 1 "1.00" fsCard 5).2 = Except.error Err.AccountNotFound ∧
    (fundAccount dbW 8 1 "1.00" fsCard 5).2 = (fundAccount emptyDB 8 1 "1.00" fsCard 5).2 ∧
    (getTransactions dbW 8 1).2 = Except.error Err.AccountNotFound ∧
    (getTransactions emptyDB 8 1).2 = Except.error Err.AccountNotFound ∧
    (getTransactions dbW 8 1).2 = (getTransactions emptyDB 8 1).2 :=
  C6_ownership_indistinguishable dbW emptyDB 8 8 1 1 "1.00" fsCard 5 100
    rfl rfl (by decide) ⟨acctW, by decide, rfl⟩ (by decide) (by decide)

/-- C9: for an owned account, `getTransactions` leaves the store
untouched, is idempotent (a second call returns the identical sequence),
and returns all ledger entries of the account, each enriched with the
account's type at query time. -/
theorem C9_list_transactions (db : DB) (uid aid : Nat) (acct : Account)
    (hf : findAccount db aid uid = some acct)
    (huniq : ∀ a ∈ db.accounts, a.id = aid → a = acct) :
    (getTransactions db uid aid).1 = db ∧
    getTransactions (getTransactions db uid aid).1 uid aid =
      getTransactions db uid aid ∧
    ∃ l, (getTransactions db uid aid).2 = Except.ok l ∧
      (∀ t ∈ db.transactions, t.accountId = aid →
        (t, some acct.accountType) ∈ l) ∧
      (∀ p ∈ l, p.1 ∈ db.transactions ∧ p.1.accountId = aid ∧
        p.2 = some acct.accountType) := by
  have hacct_mem : acct ∈ db.accounts := List.mem_of_find?_eq_some hf
  have hacct_id : acct.id = aid := by
    have h := List.find?_some hf
    rw [Bool.and_eq_true, beq_iff_eq, beq_iff_eq] at h
    exact h.1
  have hlook : db.accounts.find? (fun a => a.id == aid) = some acct :=
    find?_unique _ hacct_mem (by simp [hacct_id])
      fun y hy hpy => huniq y hy (beq_iff_eq.mp hpy)
  have heq := getTxns_eq_ok hf
  refine ⟨by rw [heq], by rw [heq]; exact heq, _, by rw [heq], ?_, ?_⟩
  · intro t ht htid
    refine List.mem_map.mpr ⟨t, List.mem_filter.mpr ⟨ht, by simp [htid]⟩, ?_⟩
    rw [htid, hlook]
    rfl
  · intro p hp
    obtain ⟨t, htmem, rfl⟩ := List.mem_map.mp hp
    obtain ⟨ht, htid⟩ := List.mem_filter.mp htmem
    have htid' : t.accountId = aid := beq_iff_eq.mp htid
    refine ⟨ht, htid', ?_⟩
    rw [htid', hlook]
    rfl

/-- Witness for C9 on the concrete store `dbW`. -/
theorem C9_list_transactions_witness :
    (getTransactions dbW 7 1).1 = dbW ∧
    getTransactions (getTransactions dbW 7 1).1 7 1 = getTransactions dbW 7 1 ∧
    ∃ l, (getTransactions dbW 7 1).2 = Except.ok l ∧
      (∀ t ∈ dbW.transactions, t.accountId = 1 →
        (t, some acctW.accountType) ∈ l) ∧
      (∀ p ∈ l, p.1 ∈ dbW.transactions ∧ p.1.accountId = 1 ∧
        p.2 = some acctW.accountType) :=
  C9_list_transactions dbW 7 1 acctW rfl (by decide)

/-- C10: a successful `fundAccount` call changes only two things: it
appends exactly one ledger row referencing the funded account, and it
raises that account's balance; users, sessions, other accounts, earlier
ledger rows, and the funded account's identity fields are untouched. -/
theorem C10_fund_frame (db : DB) (uid aid : Nat) (s : String)
    (fs : FundingSource) (now : Nat) (r : FundResult)
    (h : (fundAccount db uid aid s fs now).2 = Except.ok r) :
    (fundAccount db uid aid s fs now).1.users = db.users ∧
    (fundAccount db uid aid s fs now).1.sessions = db.sessions ∧
    (∃ t : Txn, (fundAccount db uid aid s fs now).1.transactions =
      db.transactions ++ [t] ∧ t.accountId = aid) ∧
    (fundAccount db uid aid s fs now).1.accounts.length = db.accounts.length ∧
    (∀ a ∈ db.accounts, a.id ≠ aid →
      a ∈ (fundAccount db uid aid s fs now).1.accounts) ∧
    (∃ cents : Int, 0 < cents ∧ ∀ a ∈ db.accounts, a.id = aid →
      { a with balance := a.balance + cents } ∈
        (fundAccount db uid aid s fs now).1.accounts) := by
  obtain ⟨cents, acct, _, _, hge, _, _, _, hpost⟩ := fundAccount_ok_inversion h
  rw [hpost]
  refine ⟨rfl, rfl, ⟨mkFundTxn db aid (cents : Int) fs.type now, rfl, rfl⟩,
    by simp [applyFundWrites], ?_, ⟨(cents : Int), by exact_mod_cast hge, ?_⟩⟩
  · intro a ha hne
    rw [applyFundWrites]
    exact List.mem_map.mpr ⟨a, ha, by simp [hne]⟩
  · intro a ha hid
    rw [applyFundWrites]
    exact List.mem_map.mpr ⟨a, ha, by simp [hid]⟩

/-- Witness for C10: funding account 1 of `dbW` with "1.23". -/
theorem C10_fund_frame_witness :
    (fundAccount dbW 7 1 "1.23" fsCard 9).1.users = dbW.users ∧
    (fundAccount dbW 7 1 "1.23" fsCard 9).1.sessions = dbW.sessions ∧
    (∃ t : Txn, (fundAccount dbW 7 1 "1.23" fsCard 9).1.transactions =
      dbW.transactions ++ [t] ∧ t.accountId = 1) ∧
    (fundAccount dbW 7 1 "1.23" fsCard 9).1.accounts.length = dbW.accounts.length ∧
    (∀ a ∈ dbW.accounts, a.id ≠ 1 →
      a ∈ (fundAccount dbW 7 1 "1.23" fsCard 9).1.accounts) ∧
    (∃ cents : Int, 0 < cents ∧ ∀ a ∈ dbW.accounts, a.id = 1 →
      { a with balance := a.balance + cents } ∈
        (fundAccount dbW 7 1 "1.23" fsCard 9).1.accounts) :=
  C10_fund_frame dbW 7 1 "1.23" fsCard 9
    { inserted := mkFundTxn dbW 1 123 "card" 9
      newBalance := readBalance
        (applyFundWrites dbW 1 123 (mkFundTxn dbW 1 123 "card" 9)) 1 }
    (by rw [@fund_eq_ok "1.23" 123 rfl fsCard rfl (by decide) dbW 7 1 acctW rfl rfl 9]; rfl)

/-- One successful funding step: the call returns `ok`, the account is
still found (with `cents` added to its balance, other fields untouched),
and the account's ledger has exactly one more row. -/
theorem fund_step {db : DB} {uid aid : Nat} {s : String} {fs : FundingSource}
    {now : Nat} {cents : Nat} {acct : Account}
    (hn : normalizeAmount s = some cents) (hfs : validFundingSource fs = true)
    (hge : ¬ cents < 1) (hf : findAccount db aid uid = some acct)
    (hst : acct.status = "active") :
    ∃ r, fundAccount db uid aid s fs now =
        ((fundAccount db uid aid s fs now).1, Except.ok r) ∧
      findAccount (fundAccount db uid aid s fs now).1 aid uid =
        some { acct with balance := acct.balance + (cents : Int) } ∧
      (txnsFor (fundAccount db uid aid s fs now).1 aid).length =
        (txnsFor db aid).length + 1 := by
  rw [fund_eq_ok hn hfs hge hf hst now]
  refine ⟨_, rfl, ?_, ?_⟩
  · exact findAccount_applyFundWrites hf _ _
  · rw [txnsFor_applyFundWrites db aid _ rfl]
    simp

/-- C1: with the account active and the amount valid, `N` serialized
`FundAccount` calls (the only executions the per-call sqlite transaction
admits for `N` concurrent calls) all succeed, the final balance is the
pre-call balance plus `N` times the normalized amount — exactly
`round(B + N*A, 2)` in exact-cents arithmetic — and exactly `N` new
ledger rows exist for the account: no lost updates. -/
theorem C1_concurrent_funding (uid aid : Nat) (s : String) (fs : FundingSource)
    (now : Nat) (cents : Nat) (N : Nat) (db : DB) (acct : Account)
    (hn : normalizeAmount s = some cents) (hfs : validFundingSource fs = true)
    (hge : 1 ≤ cents) (hf : findAccount db aid uid = some acct)
    (hst : acct.status = "active") :
    ∃ dbN, fundN uid aid s fs now N db = some dbN ∧
      findAccount dbN aid uid =
        some { acct with balance := acct.balance + (N : Int) * (cents : Int) } ∧
      (txnsFor dbN aid).length = (txnsFor db aid).length + N := by
  induction N generalizing db acct with
  | zero =>
    refine ⟨db, rfl, ?_, rfl⟩
    rw [hf]
    simp
  | succ n ih =>
    obtain ⟨r, hr, hfind, hcount⟩ := fund_step hn hfs (by omega) hf hst
    obtain ⟨dbN, h1, h2, h3⟩ := ih (fundAccount db uid aid s fs now).1
      { acct with balance := acct.balance + (cents : Int) } hfind hst
    refine ⟨dbN, ?_, ?_, ?_⟩
    · simp only [fundN]
      rw [hr]
      exact h1
    · rw [h2]
      congr 2
      all_goals first
      | rfl
      | (push_cast; ring)
    · rw [h3, hcount]
      omega

/-- Witness for C1: three serialized fundings of "1.23" on `dbW`. -/
theorem C1_concurrent_funding_witness :
    ∃ dbN, fundN 7 1 "1.23" fsCard 9 3 dbW = some dbN ∧
      findAccount dbN 1 7 =
        some { acctW with balance := acctW.balance + (3 : Int) * (123 : Int) } ∧
      (txnsFor dbN 1).length = (txnsFor dbW 1).length + 3 :=
  C1_concurrent_funding 7 1 "1.23" fsCard 9 123 3 dbW acctW rfl rfl
    (by decide) rfl rfl

/-- Committing the two statements of the funding transaction body is the
store transition `fundAccount` performs. -/
theorem fundWrites_commit (db : DB) (aid : Nat) (cents : Int)
    (fs : FundingSource) (now : Nat) :
    applyTake db (fundWrites db aid cents fs now)
        (fundWrites db aid cents fs now).length =
      applyFundWrites db aid cents (mkFundTxn db aid cents fs.type now) := rfl

/-- C2: under the funding preconditions, every execution of the atomic
step is all-or-nothing: with no persistence failure both the ledger insert
and the balance update are applied (exactly the `fundAccount` post-state);
a failure at any point of the transaction rolls back to the snapshot, the
new ledger row does not exist, the balance is unchanged, and the call
surfaces `InternalError`. -/
theorem C2_atomic_funding (db : DB) (uid aid : Nat) (s : String)
    (fs : FundingSource) (now : Nat) (cents : Nat) (acct : Account)
    (hn : normalizeAmount s = some cents) (hfs : validFundingSource fs = true)
    (hge : 1 ≤ cents) (hf : findAccount db aid uid = some acct)
    (hst : acct.status = "active")
    (hfresh : ∀ u ∈ db.transactions, u.id < db.nextTxnId)
    (failAfter : Option Nat) :
    ((runTxn db (fundWrites db aid (cents : Int) fs now) failAfter).2 = none ∧
      (runTxn db (fundWrites db aid (cents : Int) fs now) failAfter).1 =
        (fundAccount db uid aid s fs now).1 ∧
      mkFundTxn db aid (cents : Int) fs.type now ∈
        (runTxn db (fundWrites db aid (cents : Int) fs now) failAfter).1.transactions ∧
      readBalance (runTxn db (fundWrites db aid (cents : Int) fs now) failAfter).1 aid =
        readBalance db aid + (cents : Int)) ∨
    ((runTxn db (fundWrites db aid (cents : Int) fs now) failAfter).2 =
        some Err.InternalError ∧
      (runTxn db (fundWrites db aid (cents : Int) fs now) failAfter).1 = db ∧
      mkFundTxn db aid (cents : Int) fs.type now ∉
        (runTxn db (fundWrites db aid (cents : Int) fs now) failAfter).1.transactions ∧
      readBalance (runTxn db (fundWrites db aid (cents : Int) fs now) failAfter).1 aid =
        readBalance db aid) := by
  have hmem : acct ∈ db.accounts := List.mem_of_find?_eq_some hf
  have hid : acct.id = aid := by
    have hp := List.find?_some hf
    rw [Bool.and_eq_true, beq_iff_eq, beq_iff_eq] at hp
    exact hp.1
  cases failAfter with
  | none =>
    have hcommit : (runTxn db (fundWrites db aid (cents : Int) fs now) none).1 =
        applyFundWrites db aid (cents : Int)
          (mkFundTxn db aid (cents : Int) fs.type now) := rfl
    refine Or.inl ⟨rfl, ?_, ?_, ?_⟩
    · rw [hcommit, fund_eq_ok hn hfs (by omega) hf hst now]
    · rw [hcommit, applyFundWrites]
      exact List.mem_append_right _ (List.mem_singleton.mpr rfl)
    · rw [hcommit]
      exact readBalance_applyFundWrites hmem hid _ _
  | some k =>
    refine Or.inr ⟨rfl, rfl, ?_, rfl⟩
    intro hmemT
    have hlt := hfresh _ hmemT
    simp [mkFundTxn] at hlt

/-- Witness for C2: a failure after the first statement of the funding
transaction on `dbW` rolls back — the store is the snapshot and the new
ledger row does not exist. -/
theorem C2_atomic_funding_witness :
    (runTxn dbW (fundWrites dbW 1 (123 : Int) fsCard 9) (some 1)).1 = dbW ∧
    mkFundTxn dbW 1 (123 : Int) fsCard.type 9 ∉
      (runTxn dbW (fundWrites dbW 1 (123 : Int) fsCard 9) (some 1)).1.transactions := by
  rcases C2_atomic_funding dbW 7 1 "1.23" fsCard 9 123 acctW rfl rfl (by decide)
      rfl rfl (by decide) (some 1) with ⟨h1, _⟩ | ⟨_, h2, h3, _⟩
  · exact absurd h1 (by decide)
  · exact ⟨h2, h3⟩

/-! ## Invariant preservation (C3) -/

theorem completedSum_insertAccount (db : DB) (uid : Nat) (atype n : String)
    (x : Nat) :
    completedSum (insertAccount db uid atype n) x = completedSum db x := rfl

theorem completedSum_fund (db : DB) (aid : Nat) (cents : Int)
    (srcType : String) (now : Nat) (x : Nat) :
    completedSum (applyFundWrites db aid cents (mkFundTxn db aid cents srcType now)) x =
      completedSum db x + (if aid = x then cents else 0) := by
  rw [completedSum, completedSum, applyFundWrites]
  rw [List.filter_append, List.map_append, List.sum_append]
  congr 1
  by_cases h : aid = x
  · simp [mkFundTxn, h]
  · simp [mkFundTxn, h]

theorem inv_insertAccount {db : DB} (h : Inv db) (uid : Nat) (atype n : String) :
    Inv (insertAccount db uid atype n) := by
  obtain ⟨⟨hb1, hb2, hb3⟩, hbal⟩ := h
  refine ⟨⟨?_, ?_, ?_⟩, ?_⟩
  · intro a ha
    rw [insertAccount] at ha ⊢
    rcases List.mem_append.mp ha with ha | ha
    · have := hb1 a ha
      simp only []
      omega
    · rw [List.mem_singleton.mp ha]
      simp [newAccount]
  · intro t ht
    have := hb2 t ht
    rw [insertAccount]
    simp only []
    omega
  · intro t ht
    exact hb3 t ht
  · intro a ha
    rw [completedSum_insertAccount]
    rcases List.mem_append.mp ha with ha | ha
    · exact hbal a ha
    · rw [List.mem_singleton.mp ha]
      rw [newAccount]
      have hnone : db.transactions.filter
          (fun t => t.accountId == db.nextAccountId && t.status == "completed") = [] := by
        rw [List.filter_eq_nil_iff]
        intro t ht
        have := hb2 t ht
        simp
        omega
      rw [completedSum, hnone]
      rfl

theorem inv_fundApply {db : DB} (h : Inv db) {aid uid : Nat} {acct : Account}
    (hf : findAccount db aid uid = some acct) (cents : Int) (srcType : String)
    (now : Nat) :
    Inv (applyFundWrites db aid cents (mkFundTxn db aid cents srcType now)) := by
  obtain ⟨⟨hb1, hb2, hb3⟩, hbal⟩ := h
  have hmem : acct ∈ db.accounts := List.mem_of_find?_eq_some hf
  have hid : acct.id = aid := by
    have hp := List.find?_some hf
    rw [Bool.and_eq_true, beq_iff_eq, beq_iff_eq] at hp
    exact hp.1
  have haid : aid < db.nextAccountId := hid ▸ hb1 acct hmem
  refine ⟨⟨?_, ?_, ?_⟩, ?_⟩
  · intro a ha
    rw [applyFundWrites] at ha
    simp only [List.mem_map] at ha
    obtain ⟨b, hb, rfl⟩ := ha
    have := hb1 b hb
    by_cases hbid : b.id = aid <;> simp [hbid, applyFundWrites] <;> omega
  · intro t ht
    rw [applyFundWrites] at ht
    simp only [] at ht
    rcases List.mem_append.mp ht with ht | ht
    · exact hb2 t ht
    · rw [List.mem_singleton.mp ht, mkFundTxn]
      exact haid
  · intro t ht
    rw [applyFundWrites] at ht
    simp only [] at ht
    rcases List.mem_append.mp ht with ht | ht
    · have := hb3 t ht
      rw [applyFundWrites]
      simp only []
      omega
    · rw [List.mem_singleton.mp ht, mkFundTxn, applyFundWrites]
      simp
  · intro a ha
    rw [applyFundWrites] at ha
    simp only [List.mem_map] at ha
    obtain ⟨b, hb, rfl⟩ := ha
    have hbbal := hbal b hb
    by_cases hbid : b.id = aid
    · rw [if_pos (show (b.id == aid) = true by simp [hbid])]
      show b.balance + cents =
        completedSum (applyFundWrites db aid cents (mkFundTxn db aid cents srcType now)) b.id
      rw [completedSum_fund, if_pos hbid.symm, hbbal]
    · rw [if_neg (show ¬ (b.id == aid) = true by simp [hbid])]
      show b.balance =
        completedSum (applyFundWrites db aid cents (mkFundTxn db aid cents srcType now)) b.id
      rw [completedSum_fund, if_neg (fun hh => hbid hh.symm), add_zero]
      exact hbbal

/-- A completed `createAccount` call either left the store unchanged or
inserted exactly one fresh account row. -/
theorem createAccount_post {db : DB} {uid : Nat} {atype : String}
    {draws : Nat → Nat} {fuel : Nat} {p : DB × Except Err Account}
    (h : createAccount db uid atype draws fuel = some p) :
    p.1 = db ∨ ∃ n, p.1 = insertAccount db uid atype n := by
  unfold createAccount at h
  by_cases hdup :
      db.accounts.any (fun a => a.userId == uid && a.accountType == atype) = true
  · rw [if_pos hdup] at h
    injection h with h'
    exact Or.inl (by rw [← h'])
  · rw [if_neg hdup] at h
    cases hal : allocateLoop db draws fuel with
    | none =>
      rw [hal] at h
      exact absurd h (by simp)
    | some n =>
      simp only [hal] at h
      cases hfind : (insertAccount db uid atype n).accounts.find?
          (fun a => a.accountNumber == n) with
      | none =>
        simp only [hfind] at h
        injection h with h'
        exact Or.inr ⟨n, by rw [← h']⟩
      | some a =>
        simp only [hfind] at h
        injection h with h'
        exact Or.inr ⟨n, by rw [← h']⟩

/-- Every core operation preserves the invariant. -/
theorem inv_stepOp {db : DB} (h : Inv db) (op : Op) : Inv (stepOp db op) := by
  cases op with
  | listAccounts u => exact h
  | listTxns u a => exact h
  | create uid atype draws fuel =>
    simp only [stepOp]
    cases hc : createAccount db uid atype draws fuel with
    | none => exact h
    | some p =>
      obtain ⟨db', res⟩ := p
      rcases createAccount_post hc with h1 | ⟨n, h1⟩
      · show Inv db'
        have h1' : db' = db := h1
        rw [h1']
        exact h
      · show Inv db'
        have h1' : db' = insertAccount db uid atype n := h1
        rw [h1']
        exact inv_insertAccount h uid atype n
  | fund uid aid s fs now =>
    simp only [stepOp]
    rcases fundAccount_cases db uid aid s fs now with
      ⟨h1, _⟩ | ⟨cents, acct, _, _, _, h4, _, h6⟩
    · rw [h1]; exact h
    · rw [h6]
      exact inv_fundApply h h4 (cents : Int) fs.type now

/-- C3: from any store satisfying the invariant — in particular any store
reachable from the empty store, which satisfies it — every sequence of
core operations (CreateAccount, ListAccounts, FundAccount,
ListTransactions) preserves it: each account's balance equals the exact
2-decimal sum of its completed ledger entries. -/
theorem C3_balance_invariant (ops : List Op) (db0 : DB) (h0 : Inv db0) :
    balanceInv (runOps db0 ops) ∧ Inv (runOps db0 ops) ∧ Inv emptyDB := by
  have hrun : Inv (runOps db0 ops) := by
    induction ops generalizing db0 with
    | nil => exact h0
    | cons op rest ih => exact ih (stepOp db0 op) (inv_stepOp h0 op)
  refine ⟨hrun.2, hrun,
    ⟨⟨by simp [emptyDB], by simp [emptyDB], by simp [emptyDB]⟩,
     by unfold balanceInv; simp [emptyDB]⟩⟩

/-- Witness for C3: a funding operation on the concrete store `dbW`
(which satisfies the invariant) preserves it. -/
theorem C3_balance_invariant_witness :
    balanceInv (runOps dbW [Op.fund 7 1 "2.00" fsCard 9]) ∧
    Inv (runOps dbW [Op.fund 7 1 "2.00" fsCard 9]) ∧ Inv emptyDB :=
  C3_balance_invariant [Op.fund 7 1 "2.00" fsCard 9] dbW
    ⟨⟨by decide, by decide, by decide⟩, by unfold balanceInv; decide⟩

/-- C7: `generateAccountNumber` does land in the 10-digit range
`[1000000000, 9999999999]` and the loop re-draws on collision — but the
`while (!isUnique)` loop of `createAccount` has NO retry ceiling and no
`AllocationExhausted` failure: on the store `dbC7` (which already holds
account number "1000000000") a random source that keeps drawing 0 makes
the loop run forever — no iteration bound whatsoever makes it return. -/
theorem C7_allocator_unbounded :
    (∀ d : Nat, 1000000000 ≤ d % 9000000000 + 1000000000 ∧
      d % 9000000000 + 1000000000 ≤ 9999999999 ∧
      generateAccountNumber d = toString (d % 9000000000 + 1000000000)) ∧
    (∀ fuel : Nat, allocateLoop dbC7 (fun _ => 0) fuel = none) := by
  constructor
  · intro d
    have hlt : d % 9000000000 < 9000000000 := Nat.mod_lt _ (by norm_num)
    exact ⟨by omega, by omega, rfl⟩
  · intro fuel
    induction fuel with
    | zero => rfl
    | succ k ih =>
      have htaken :
          numberTaken dbC7 (generateAccountNumber ((fun _ : Nat => 0) 0)) = true := by
        decide
      simp only [allocateLoop, htaken, if_true]
      exact ih

/-- Helper for C8: when the new row's timestamp strictly dominates, it is
the unique most-recent row. -/
theorem mostRecent_strict {l : List Txn} {t : Txn}
    (hstrict : ∀ u ∈ l, u.createdAt < t.createdAt) :
    (l ++ [t]).filter (fun u => (l ++ [t]).all fun v => v.createdAt ≤ u.createdAt) =
      [t] := by
  rw [List.filter_append]
  have h1 : l.filter (fun u => (l ++ [t]).all fun v => v.createdAt ≤ u.createdAt) = [] := by
    rw [List.filter_eq_nil_iff]
    intro u hu hall
    rw [List.all_eq_true] at hall
    have hle := hall t (List.mem_append_right _ (List.mem_singleton.mpr rfl))
    rw [decide_eq_true_eq] at hle
    have hlt := hstrict u hu
    omega
  have h2 : [t].filter (fun u => (l ++ [t]).all fun v => v.createdAt ≤ u.createdAt) =
      [t] := by
    have hp : ((l ++ [t]).all fun v => v.createdAt ≤ t.createdAt) = true := by
      rw [List.all_eq_true]
      intro v hv
      rw [decide_eq_true_eq]
      rcases List.mem_append.mp hv with hv | hv
      · have := hstrict v hv
        omega
      · rw [List.mem_singleton.mp hv]
    simp [List.filter, hp]
  rw [h1, h2, List.nil_append]

/-- C8 counterexample: on `dbW`, whose existing ledger row has
`created_at = 5`, a successful funding call also timestamped `5` leaves
TWO rows tied for "most recent", and the pre-existing row `txnW` — which
is not the row this call inserted — is among the possible results of the
source's `ORDER BY created_at DESC LIMIT 1` read-back.  The returned
ledger entry is therefore not guaranteed to be the entry inserted by the
same call. -/
theorem C8_returned_entry_counterexample :
    (fundAccount dbW 7 1 "1.00" fsCard 5).2 =
      Except.ok { inserted := mkFundTxn dbW 1 (100 : Int) "card" 5
                  newBalance := 600 } ∧
    txnW ∈ mostRecentCandidates (fundAccount dbW 7 1 "1.00" fsCard 5).1 1 ∧
    txnW ≠ mkFundTxn dbW 1 (100 : Int) "card" 5 :=
  ⟨rfl, by decide, by decide⟩

/-- C8 (amended): for a successful funding call whose timestamp is
strictly later than every existing ledger row of the account, the
most-recent read-back has the inserted row as its unique candidate, and
the returned `newBalance` is the balance produced by the same atomic
operation (pre-call balance plus the normalized amount). -/
theorem C8_returned_entry_amended (db : DB) (uid aid : Nat) (s : String)
    (fs : FundingSource) (now : Nat) (r : FundResult)
    (h : (fundAccount db uid aid s fs now).2 = Except.ok r)
    (hstrict : ∀ u ∈ txnsFor db aid, u.createdAt < now) :
    mostRecentCandidates (fundAccount db uid aid s fs now).1 aid = [r.inserted] ∧
    r.newBalance = readBalance (fundAccount db uid aid s fs now).1 aid ∧
    ∃ cents : Nat, normalizeAmount s = some cents ∧
      r.inserted.amount = (cents : Int) ∧
      r.newBalance = readBalance db aid + (cents : Int) := by
  obtain ⟨cents, acct, hn, _, _, h4, _, hr, hpost⟩ := fundAccount_ok_inversion h
  have hmem : acct ∈ db.accounts := List.mem_of_find?_eq_some h4
  have hid : acct.id = aid := by
    have hp := List.find?_some h4
    rw [Bool.and_eq_true, beq_iff_eq, beq_iff_eq] at hp
    exact hp.1
  refine ⟨?_, ?_, cents, hn, ?_, ?_⟩
  · rw [hpost, mostRecentCandidates,
      txnsFor_applyFundWrites db aid (cents : Int) rfl, hr]
    exact mostRecent_strict hstrict
  · rw [hr, hpost]
  · rw [hr]
    rfl
  · rw [hr]
    show readBalance (applyFundWrites db aid (cents : Int)
        (mkFundTxn db aid (cents : Int) fs.type now)) aid =
      readBalance db aid + (cents : Int)
    exact readBalance_applyFundWrites hmem hid _ _

/-- Witness for the amended C8 on `dbW` with a strictly later
timestamp. -/
theorem C8_returned_entry_amended_witness :
    mostRecentCandidates (fundAccount dbW 7 1 "1.00" fsCard 9).1 1 =
      [mkFundTxn dbW 1 (100 : Int) "card" 9] ∧
    (600 : Int) = readBalance (fundAccount dbW 7 1 "1.00" fsCard 9).1 1 ∧
    ∃ cents : Nat, normalizeAmount "1.00" = some cents ∧
      (mkFundTxn dbW 1 (100 : Int) "card" 9).amount = (cents : Int) ∧
      (600 : Int) = readBalance dbW 1 + (cents : Int) :=
  C8_returned_entry_amended dbW 7 1 "1.00" fsCard 9
    { inserted := mkFundTxn dbW 1 (100 : Int) "card" 9, newBalance := 600 }
    rfl (by decide)

end Bank
